import Mathlib

/-!
Verification of the execution-lane core (`src/omniarb/rust`): the route
prefilter, the FFI signal bridge, the block listener and the DEX stream,
together with the parts of the design (price-feed table, signal-envelope
wire codec, block observation) that the design document specifies but the
Rust skeleton leaves unimplemented.

Modelling conventions: Rust `f64` fields (`estimated_profit`,
`min_profit_threshold`, prices, timestamps) are modelled as `ℚ`, since the
code only ever compares them; `u64` counters are modelled as `Nat` reduced
modulo `2 ^ 64` at each increment; `usize` lengths are `Nat`.
-/

namespace OmniArb

/-! ## Route prefilter (`src/omniarb/rust/routing/prefilter.rs`) -/

/-- Rust struct `Route` from `prefilter.rs`: `hops: Vec<String>`,
`estimated_profit: f64`, `token_path: Vec<String>`. -/
structure Route where
  hops : List String
  estimated_profit : ℚ
  token_path : List String
deriving DecidableEq, Repr

/-- Rust struct `RoutePrefilter` from `prefilter.rs`. -/
structure RoutePrefilter where
  min_profit_threshold : ℚ
  max_hops : Nat
deriving DecidableEq, Repr

/-- Constructor `RoutePrefilter::new`. -/
def RoutePrefilter.new (min_profit_threshold : ℚ) (max_hops : Nat) : RoutePrefilter :=
  { min_profit_threshold := min_profit_threshold, max_hops := max_hops }

/-- Method `RoutePrefilter::filter_route`: reject when the hop count exceeds
`max_hops`, then reject when the estimated profit is below
`min_profit_threshold`, otherwise accept. -/
def RoutePrefilter.filter_route (self : RoutePrefilter) (route : Route) : Bool :=
  if route.hops.length > self.max_hops then
    false
  else if route.estimated_profit < self.min_profit_threshold then
    false
  else
    true

/-- Method `RoutePrefilter::prefilter_batch`:
`routes.into_iter().filter(|r| self.filter_route(r)).collect()`. -/
def RoutePrefilter.prefilter_batch (self : RoutePrefilter) (routes : List Route) : List Route :=
  routes.filter (fun r => self.filter_route r)

/-- The spec's `filter_batch`, written independently of `prefilter_batch`
from its words: the subsequence of the input consisting exactly of the
routes accepted by `filter_route`, in their original relative order. -/
def filter_batch_spec (self : RoutePrefilter) : List Route → List Route
  | [] => []
  | r :: rs =>
    if self.filter_route r then r :: filter_batch_spec self rs
    else filter_batch_spec self rs

/-! ## Signal bridge (`src/omniarb/rust/ffi/signal_bridge.rs`) -/

/-- Wrap-around modulus of the Rust `u64` type. -/
def U64_MOD : Nat := 2 ^ 64

/-- Rust struct `SignalBridge` from `signal_bridge.rs`: a single `signal_count: u64`
field. -/
structure SignalBridge where
  signal_count : Nat
deriving DecidableEq, Repr

/-- Constructor `SignalBridge::new`: counter starts at `0`. -/
def SignalBridge.new : SignalBridge :=
  { signal_count := 0 }

/-- Method `SignalBridge::send_signal`: increments `signal_count` (u64
wrap-around) and prints the signal together with the new count.  Returns
the updated bridge and the count the call reported. -/
def SignalBridge.send_signal (self : SignalBridge) (signal : String) :
    SignalBridge × Nat :=
  let c := (self.signal_count + 1) % U64_MOD
  ({ signal_count := c }, c)

/-- The sequence numbers reported by a series of `send_signal` calls on
one bridge, in call order. -/
def SignalBridge.sendSeq : SignalBridge → List String → List Nat
  | _, [] => []
  | b, s :: rest =>
    let r := b.send_signal s
    r.2 :: r.1.sendSeq rest

/-- Exported function `bridge_send_signal` from `signal_bridge.rs`: constructs a **fresh**
`SignalBridge` with `SignalBridge::new()` on every call and sends through
it; the result is the sequence number the call reports. -/
def bridge_send_signal (signal : String) : Nat :=
  let bridge := SignalBridge.new
  (bridge.send_signal signal).2

/-! ## Block listener (`src/omniarb/rust/ws/block_listener.rs`) -/

/-- Rust struct `BlockListener` from `block_listener.rs`.  The Rust
`latest_block: Arc<Mutex<u64>>` cell is modelled as a plain `Nat` field;
operations are modelled as state transformers. -/
structure BlockListener where
  rpc_url : String
  chain_id : Nat
  latest_block : Nat
deriving DecidableEq, Repr

/-- Constructor `BlockListener::new`: initializes `latest_block` to `0`. -/
def BlockListener.new (rpc_url : String) (chain_id : Nat) : BlockListener :=
  { rpc_url := rpc_url, chain_id := chain_id, latest_block := 0 }

/-- Method `BlockListener::connect`: prints a message and returns `Ok(())`; it
never touches `latest_block`, so as a state transformer it is the
identity. -/
def BlockListener.connect (self : BlockListener) : BlockListener :=
  self

/-- Method `BlockListener::listen_blocks`: prints a message only; identity on the
state. -/
def BlockListener.listen_blocks (self : BlockListener) : BlockListener :=
  self

/-- Method `BlockListener::get_latest_block`: reads the `latest_block` cell. -/
def BlockListener.get_latest_block (self : BlockListener) : Nat :=
  self.latest_block

/-- Modelled from the spec: the Chain Watcher operation
`observe(height: u64)` (§4.1), missing from
`src/omniarb/rust/ws/block_listener.rs` — "updates state iff
`height > current`; otherwise a no-op". -/
def BlockListener.observe (self : BlockListener) (height : Nat) : BlockListener :=
  if height > self.latest_block then
    { self with latest_block := height }
  else
    self

/-- Replays a whole sequence of `observe` calls in order. -/
def BlockListener.replay (self : BlockListener) (hs : List Nat) : BlockListener :=
  hs.foldl BlockListener.observe self

/-- The public operations `block_listener.rs` actually implements
(besides construction). -/
inductive CodeOp where
  | connect
  | listen_blocks
  | get_latest_block
deriving DecidableEq, Repr

/-- Effect of one implemented public operation on the listener state. -/
def BlockListener.stepCode (self : BlockListener) : CodeOp → BlockListener
  | .connect => self.connect
  | .listen_blocks => self.listen_blocks
  | .get_latest_block => self

/-- The operations of the Block Height State considered by the design:
the implemented ones plus the spec-modelled `observe` height update. -/
inductive ListenerOp where
  | connect
  | listen_blocks
  | get_latest_block
  | observe (height : Nat)
deriving DecidableEq, Repr

/-- Effect of one operation (implemented or spec-modelled height update)
on the listener state. -/
def BlockListener.step (self : BlockListener) : ListenerOp → BlockListener
  | .connect => self.connect
  | .listen_blocks => self.listen_blocks
  | .get_latest_block => self
  | .observe h => self.observe h

/-! ## Price feed listener (`src/omniarb/rust/ws/dex_stream.rs`) -/

/-- Rust struct `DexStream` from `dex_stream.rs`: a URL and a `connected` flag.  The
Rust `Arc<Mutex<bool>>` cell is a plain `Bool` field. -/
structure DexStream where
  url : String
  connected : Bool
deriving DecidableEq, Repr

/-- Constructor `DexStream::new`: starts disconnected. -/
def DexStream.new (url : String) : DexStream :=
  { url := url, connected := false }

/-- Method `DexStream::connect`: sets the `connected` flag and prints. -/
def DexStream.connect (self : DexStream) : DexStream :=
  { self with connected := true }

/-- Modelled from the spec: the `PriceSnapshot` record of §3
(`{exchange_id, token_pair, price: f64, liquidity: f64, observed_at:
timestamp}`), missing from `src/omniarb/rust/ws/dex_stream.rs`. -/
structure PriceSnapshot where
  exchange_id : String
  token_pair : String
  price : ℚ
  liquidity : ℚ
  observed_at : ℚ
deriving DecidableEq, Repr

/-- The Price Feed Listener's snapshot table, keyed by
`(exchange_id, token_pair)`. -/
abbrev PriceTable := String × String → Option PriceSnapshot

/-- The empty snapshot table. -/
def PriceTable.empty : PriceTable := fun _ => none

/-- Modelled from the spec: the Price Feed Listener operation
`update(snapshot)` of §4.2, missing from
`src/omniarb/rust/ws/dex_stream.rs` — "replaces the entry for
`(exchange_id, token_pair)` iff `snapshot.observed_at >=
existing.observed_at`; stale updates are rejected"; an update for an
absent key stores the snapshot. -/
def PriceTable.update (t : PriceTable) (s : PriceSnapshot) : PriceTable :=
  fun k =>
    if k = (s.exchange_id, s.token_pair) then
      match t k with
      | none => some s
      | some old => if old.observed_at ≤ s.observed_at then some s else some old
    else
      t k

/-- Applies a whole sequence of `update` calls in order. -/
def PriceTable.updates (t : PriceTable) (ss : List PriceSnapshot) : PriceTable :=
  ss.foldl PriceTable.update t

/-! ## Signal envelope wire codec (spec §3, §6)

The Rust skeleton's `SignalBridge` only counts signals; the envelope wire
format exists only in the design document, so the codec below is modelled
from the spec: a 1-byte kind tag, an 8-byte big-endian sequence number, a
4-byte big-endian payload length, then the payload bytes, where the
payload serializes the route hops and token path as length-prefixed UTF-8
strings (each list is 4-byte big-endian count-prefixed, each string
4-byte big-endian length-prefixed). -/

/-- Modelled from the spec: the envelope `kind` enum of §3. -/
inductive SignalKind where
  | RouteAccepted
  | ExecutionAck
  | ExecutionNack
  | Heartbeat
deriving DecidableEq, Repr

/-- Modelled from the spec: the 1-byte kind tag (§6 prescribes a 1-byte
tag but no concrete values; any injective assignment serves). -/
def SignalKind.tag : SignalKind → Nat
  | .RouteAccepted => 0
  | .ExecutionAck => 1
  | .ExecutionNack => 2
  | .Heartbeat => 3

/-- Inverse of `SignalKind.tag`. -/
def tagToKind : Nat → Option SignalKind
  | 0 => some .RouteAccepted
  | 1 => some .ExecutionAck
  | 2 => some .ExecutionNack
  | 3 => some .Heartbeat
  | _ => none

/-- The UTF-8 bytes of a string, as natural numbers below 256. -/
def utf8Bytes (s : String) : List Nat :=
  s.data.flatMap (fun c => (String.utf8EncodeChar c).map UInt8.toNat)

/-- Big-endian `w`-byte encoding of `n` (truncating to `n % 256 ^ w`). -/
def beBytes : Nat → Nat → List Nat
  | 0, _ => []
  | w + 1, n => (n / 256 ^ w) % 256 :: beBytes w n

/-- Big-endian value of a byte list. -/
def fromBeBytes (bs : List Nat) : Nat :=
  bs.foldl (fun a b => a * 256 + b) 0

/-- A length-prefixed string: 4-byte big-endian byte length, then the
bytes. -/
def encodeStr (s : List Nat) : List Nat :=
  beBytes 4 s.length ++ s

/-- A count-prefixed list of length-prefixed strings. -/
def encodeStrList (ss : List (List Nat)) : List Nat :=
  beBytes 4 ss.length ++ (ss.map encodeStr).flatten

/-- The `RouteAccepted` payload: the hops then the token path, each as a
count-prefixed list of length-prefixed UTF-8 strings. -/
def encodePayload (hops token_path : List (List Nat)) : List Nat :=
  encodeStrList hops ++ encodeStrList token_path

/-- A full envelope: 1-byte kind tag, 8-byte big-endian sequence number,
4-byte big-endian payload length, payload bytes. -/
def encodeEnvelope (kind : SignalKind) (sequence : Nat) (payload : List Nat) : List Nat :=
  kind.tag :: (beBytes 8 sequence ++ beBytes 4 payload.length ++ payload)

/-- Encoding an accepted `Route` as a `RouteAccepted` envelope: the
payload carries the route's hops and token path as UTF-8 strings. -/
def encodeRouteAccepted (sequence : Nat) (route : Route) : List Nat :=
  encodeEnvelope .RouteAccepted sequence
    (encodePayload (route.hops.map utf8Bytes) (route.token_path.map utf8Bytes))

/-- Splits off exactly `n` bytes, failing when fewer are available. -/
def takeBytes (n : Nat) (bs : List Nat) : Option (List Nat × List Nat) :=
  if n ≤ bs.length then some (bs.take n, bs.drop n) else none

/-- Decodes one length-prefixed string, returning it and the rest. -/
def decodeStr (bs : List Nat) : Option (List Nat × List Nat) := do
  let (lenB, rest) ← takeBytes 4 bs
  let (s, rest2) ← takeBytes (fromBeBytes lenB) rest
  pure (s, rest2)

/-- Decodes exactly `n` length-prefixed strings. -/
def decodeStrs : Nat → List Nat → Option (List (List Nat) × List Nat)
  | 0, bs => some ([], bs)
  | n + 1, bs => do
    let (s, rest) ← decodeStr bs
    let (ss, rest2) ← decodeStrs n rest
    pure (s :: ss, rest2)

/-- Decodes one count-prefixed list of length-prefixed strings. -/
def decodeStrList (bs : List Nat) : Option (List (List Nat) × List Nat) := do
  let (cntB, rest) ← takeBytes 4 bs
  decodeStrs (fromBeBytes cntB) rest

/-- Decodes a `RouteAccepted` payload (hops, then token path), requiring
the payload to be consumed exactly. -/
def decodePayload (bs : List Nat) : Option (List (List Nat) × List (List Nat)) := do
  let (hops, rest) ← decodeStrList bs
  let (token_path, rest2) ← decodeStrList rest
  if rest2.isEmpty then pure (hops, token_path) else none

/-- Decodes a complete `RouteAccepted` envelope: kind, sequence number,
hops byte strings and token-path byte strings. -/
def decodeEnvelope (bs : List Nat) :
    Option (SignalKind × Nat × List (List Nat) × List (List Nat)) := do
  match bs with
  | [] => none
  | t :: rest =>
    let kind ← tagToKind t
    let (seqB, rest2) ← takeBytes 8 rest
    let (lenB, rest3) ← takeBytes 4 rest2
    let (payload, rest4) ← takeBytes (fromBeBytes lenB) rest3
    if rest4.isEmpty then
      let (hops, token_path) ← decodePayload payload
      pure (kind, fromBeBytes seqB, hops, token_path)
    else
      none

/-! ## Theorems: route prefilter -/

/-- Unfolding lemma: `filter_batch_spec` is `List.filter`. -/
theorem filter_batch_spec_eq_filter (self : RoutePrefilter) (routes : List Route) :
    filter_batch_spec self routes = routes.filter (fun r => self.filter_route r) := by
  induction routes with
  | nil => rfl
  | cons r rs ih =>
    by_cases h : self.filter_route r <;>
      simp [filter_batch_spec, List.filter_cons, h, ih]

/-- C1: for every `RoutePrefilter` configuration and every route,
`filter_route` returns `false` when the hop count exceeds `max_hops`;
otherwise it returns `false` when the estimated profit is below
`min_profit_threshold`; otherwise it returns `true`.  The hop-count check
decides first (its rejection holds whatever the profit is). -/
theorem claim1_filter_route_cases (self : RoutePrefilter) (route : Route) :
    (route.hops.length > self.max_hops → self.filter_route route = false) ∧
    (route.hops.length ≤ self.max_hops →
      route.estimated_profit < self.min_profit_threshold →
        self.filter_route route = false) ∧
    (route.hops.length ≤ self.max_hops →
      self.min_profit_threshold ≤ route.estimated_profit →
        self.filter_route route = true) := by
  refine ⟨fun h => ?_, fun h1 h2 => ?_, fun h1 h2 => ?_⟩
  · simp [RoutePrefilter.filter_route, h]
  · simp [RoutePrefilter.filter_route, Nat.not_lt.mpr h1, h2]
  · simp [RoutePrefilter.filter_route, Nat.not_lt.mpr h1, not_lt.mpr h2]

/-- Witness for C1: the three cases at concrete configurations and
routes — too many hops, too little profit, accepted. -/
theorem claim1_filter_route_cases_witness :
    ((RoutePrefilter.new (1 / 100) 2).filter_route
      { hops := ["a", "b", "c"], estimated_profit := 1, token_path := [] } = false) ∧
    ((RoutePrefilter.new (1 / 100) 4).filter_route
      { hops := ["a"], estimated_profit := 1 / 1000, token_path := [] } = false) ∧
    ((RoutePrefilter.new (1 / 100) 4).filter_route
      { hops := ["a"], estimated_profit := 1, token_path := [] } = true) :=
  ⟨(claim1_filter_route_cases _ _).1 (by decide),
   (claim1_filter_route_cases _ _).2.1 (by decide) (by norm_num [RoutePrefilter.new]),
   (claim1_filter_route_cases _ _).2.2 (by decide) (by norm_num [RoutePrefilter.new])⟩

/-- C2: `prefilter_batch` returns exactly the subsequence of input routes
accepted by `filter_route` (the spec's stable filter, here
`filter_batch_spec`), and the output is a sublist of the input — same
relative order, every returned route an unmodified input route. -/
theorem claim2_prefilter_batch_stable (self : RoutePrefilter) (routes : List Route) :
    self.prefilter_batch routes = filter_batch_spec self routes ∧
    (self.prefilter_batch routes).Sublist routes := by
  constructor
  · rw [filter_batch_spec_eq_filter]
    rfl
  · exact List.filter_sublist routes

/-- C3: the spec's concrete batch example.  With `max_hops = 4` and
`min_profit_threshold = 0.01`, the three-route list keeps exactly the
first route (3 hops, profit `0.02`); the 6-hop route and the
`0.001`-profit route are rejected. -/
theorem claim3_filter_batch_example :
    (RoutePrefilter.new (0.01 : ℚ) 4).prefilter_batch
      [{ hops := ["h1", "h2", "h3"], estimated_profit := (0.02 : ℚ), token_path := ["t"] },
       { hops := ["h1", "h2", "h3", "h4", "h5", "h6"], estimated_profit := (0.5 : ℚ),
         token_path := ["t"] },
       { hops := ["h1", "h2"], estimated_profit := (0.001 : ℚ), token_path := ["t"] }] =
      [{ hops := ["h1", "h2", "h3"], estimated_profit := (0.02 : ℚ), token_path := ["t"] }] := by
  simp only [RoutePrefilter.prefilter_batch, RoutePrefilter.new, RoutePrefilter.filter_route,
    List.filter_cons, List.filter_nil, List.length_cons, List.length_nil]
  norm_num

/-- C9: the prefilter performs no hops-length-at-least-one validation: a
route with an empty hops list and profit at or above the threshold is
accepted. -/
theorem claim9_zero_hop_accepted (self : RoutePrefilter) (route : Route)
    (hhops : route.hops = [])
    (hprofit : self.min_profit_threshold ≤ route.estimated_profit) :
    self.filter_route route = true := by
  simp [RoutePrefilter.filter_route, hhops, not_lt.mpr hprofit]

/-- Witness for C9: a zero-hop route at profit `1` against threshold
`0.01` is accepted. -/
theorem claim9_zero_hop_accepted_witness :
    (RoutePrefilter.new (1 / 100) 4).filter_route
      { hops := [], estimated_profit := 1, token_path := ["t"] } = true :=
  claim9_zero_hop_accepted _ _ (by decide) (by norm_num [RoutePrefilter.new])

/-! ## Theorems: signal bridge -/

/-- Helper: while the `u64` counter does not wrap, the sequence numbers a
bridge reports form the contiguous range that starts immediately after
its initial counter value. -/
theorem SignalBridge.sendSeq_eq_range (signals : List String) (b : SignalBridge)
    (h : b.signal_count + signals.length < U64_MOD) :
    b.sendSeq signals = List.range' (b.signal_count + 1) signals.length := by
  induction signals generalizing b with
  | nil => rfl
  | cons s rest ih =>
    have hlt : b.signal_count + 1 < U64_MOD := by
      simp only [List.length_cons] at h
      omega
    have hmod : (b.signal_count + 1) % U64_MOD = b.signal_count + 1 := Nat.mod_eq_of_lt hlt
    have hrec := ih { signal_count := b.signal_count + 1 }
      (by simp only [List.length_cons] at h; simpa using by omega)
    simp only [SignalBridge.sendSeq, SignalBridge.send_signal, hmod, List.length_cons,
      List.range'_succ]
    exact congrArg _ hrec

/-- C4 (amended): on a single `SignalBridge` instance whose `u64` counter
does not wrap, the sequence numbers reported by a series of `send_signal`
calls are exactly the contiguous range starting immediately after the
bridge's initial counter value; in particular they are pairwise distinct
and strictly increasing.  (As stated the claim fails: the exported
`bridge_send_signal` entry point builds a fresh bridge per call, see the
counterexample.) -/
theorem claim4_send_signal_sequence (b : SignalBridge) (signals : List String)
    (h : b.signal_count + signals.length < U64_MOD) :
    b.sendSeq signals = List.range' (b.signal_count + 1) signals.length ∧
    (b.sendSeq signals).Nodup ∧
    List.Pairwise (fun x y => x < y) (b.sendSeq signals) := by
  have he := SignalBridge.sendSeq_eq_range signals b h
  rw [he]
  exact ⟨rfl, List.nodup_range' _ _, List.pairwise_lt_range' _ _⟩

/-- Witness for C4 (amended): a fresh bridge reports `[1, 2, 3]` for three
sends. -/
theorem claim4_send_signal_sequence_witness :
    SignalBridge.new.sendSeq ["sigA", "sigB", "sigC"] = List.range' 1 3 ∧
    (SignalBridge.new.sendSeq ["sigA", "sigB", "sigC"]).Nodup ∧
    List.Pairwise (fun x y => x < y) (SignalBridge.new.sendSeq ["sigA", "sigB", "sigC"]) :=
  claim4_send_signal_sequence SignalBridge.new ["sigA", "sigB", "sigC"] (by decide)

/-- C4 counterexample: two distinct calls through the exported
`bridge_send_signal` entry point both report sequence number `1`, because
the function constructs a fresh `SignalBridge::new()` on every call — so
sequence numbers are not unique across `bridge_send_signal` calls. -/
theorem claim4_counterexample :
    bridge_send_signal "SIG_A" = 1 ∧ bridge_send_signal "SIG_B" = 1 := by
  constructor <;> rfl

/-! ## Theorems: block listener -/

/-- Helper: one `observe` stores the maximum of the current height and
the observed height. -/
theorem BlockListener.observe_latest (l : BlockListener) (h : Nat) :
    (l.observe h).latest_block = max l.latest_block h := by
  by_cases hc : h > l.latest_block
  · simp [BlockListener.observe, hc, Nat.max_eq_right (le_of_lt hc)]
  · simp [BlockListener.observe, hc, Nat.max_eq_left (Nat.not_lt.mp hc)]

/-- Helper: replaying observations folds `max` over the heights. -/
theorem BlockListener.replay_latest (hs : List Nat) (l : BlockListener) :
    (l.replay hs).latest_block = hs.foldl max l.latest_block := by
  induction hs generalizing l with
  | nil => rfl
  | cons h rest ih =>
    show ((l.observe h).replay rest).latest_block = _
    rw [ih, List.foldl_cons, BlockListener.observe_latest]

/-- C5: `observe` updates the stored height iff the observed height is
strictly greater (otherwise it is a no-op), and replaying any sequence of
observations on a fresh listener leaves `get_latest_block` at the maximum
height observed, independently of arrival order.  The `observe`
operation itself is modelled from the spec (§4.1); the listener state and
`get_latest_block` are the code's. -/
theorem claim5_observe_replay (l : BlockListener) (h : Nat) (u : String) (c : Nat)
    (hs hs' : List Nat) (hperm : hs.Perm hs') :
    (h > l.latest_block → l.observe h = { l with latest_block := h }) ∧
    (h ≤ l.latest_block → l.observe h = l) ∧
    ((BlockListener.new u c).replay hs).get_latest_block = hs.foldl max 0 ∧
    ((BlockListener.new u c).replay hs).get_latest_block =
      ((BlockListener.new u c).replay hs').get_latest_block := by
  haveI : RightCommutative (max : Nat → Nat → Nat) :=
    ⟨fun b a₁ a₂ => by rw [max_assoc, max_comm a₁, ← max_assoc]⟩
  refine ⟨fun hgt => ?_, fun hle => ?_, ?_, ?_⟩
  · simp [BlockListener.observe, hgt]
  · simp [BlockListener.observe, Nat.not_lt.mpr hle]
  · exact BlockListener.replay_latest hs (BlockListener.new u c)
  · show (BlockListener.replay _ hs).latest_block = (BlockListener.replay _ hs').latest_block
    rw [BlockListener.replay_latest, BlockListener.replay_latest]
    exact hperm.foldl_eq _

/-- Witness for C5: a listener at height `5` with observation `7`, and a
replay of `[3, 1, 2]` versus its permutation `[2, 3, 1]`. -/
theorem claim5_observe_replay_witness :
    ((7 > (⟨"wss", 137, 5⟩ : BlockListener).latest_block →
      (⟨"wss", 137, 5⟩ : BlockListener).observe 7 = ⟨"wss", 137, 7⟩) ∧
    (7 ≤ (⟨"wss", 137, 5⟩ : BlockListener).latest_block →
      (⟨"wss", 137, 5⟩ : BlockListener).observe 7 = ⟨"wss", 137, 5⟩) ∧
    ((BlockListener.new "wss" 137).replay [3, 1, 2]).get_latest_block =
      [3, 1, 2].foldl max 0 ∧
    ((BlockListener.new "wss" 137).replay [3, 1, 2]).get_latest_block =
      ((BlockListener.new "wss" 137).replay [2, 3, 1]).get_latest_block) :=
  claim5_observe_replay ⟨"wss", 137, 5⟩ 7 "wss" 137 [3, 1, 2] [2, 3, 1] (by decide)

/-- Helper: no single operation — implemented or spec-modelled height
update — decreases `latest_block`. -/
theorem BlockListener.step_mono (l : BlockListener) (op : ListenerOp) :
    l.latest_block ≤ (l.step op).latest_block := by
  cases op with
  | connect => exact le_refl _
  | listen_blocks => exact le_refl _
  | get_latest_block => exact le_refl _
  | observe h =>
    show l.latest_block ≤ (l.observe h).latest_block
    rw [BlockListener.observe_latest]
    omega

/-- C6: the Block Height State never regresses — every operation
(construction leaves it at `0`; `connect`, `listen_blocks`,
`get_latest_block` and the spec-modelled `observe` height update) leaves
`latest_block` greater than or equal to its previous value, and so does
any sequence of such operations. -/
theorem claim6_height_never_regresses (l : BlockListener) (op : ListenerOp)
    (ops : List ListenerOp) :
    l.latest_block ≤ (l.step op).latest_block ∧
    l.latest_block ≤ (ops.foldl BlockListener.step l).latest_block := by
  refine ⟨BlockListener.step_mono l op, ?_⟩
  induction ops generalizing l with
  | nil => exact le_refl _
  | cons o rest ih =>
    exact le_trans (BlockListener.step_mono l o) (ih (l.step o))

/-- Helper: every public operation the Rust code implements is the
identity on the listener state. -/
theorem BlockListener.stepCode_eq (l : BlockListener) (op : CodeOp) :
    l.stepCode op = l := by
  cases op <;> rfl

/-- C10: `new` initializes `latest_block` to `0` and no implemented
public operation ever writes it, so after any sequence of `connect`,
`listen_blocks` and `get_latest_block` calls, `get_latest_block` returns
`0`. -/
theorem claim10_latest_block_stays_zero (u : String) (c : Nat) (ops : List CodeOp) :
    (ops.foldl BlockListener.stepCode (BlockListener.new u c)).get_latest_block = 0 ∧
    ∀ (l : BlockListener) (op : CodeOp), l.stepCode op = l := by
  constructor
  · have hfold : ∀ (os : List CodeOp) (l : BlockListener), os.foldl BlockListener.stepCode l = l := by
      intro os
      induction os with
      | nil => intro l; rfl
      | cons o rest ih =>
        intro l
        rw [List.foldl_cons, BlockListener.stepCode_eq, ih l]
    rw [hfold]
    rfl
  · exact BlockListener.stepCode_eq

/-! ## Theorems: price feed listener -/

/-- Helper: folding same-key updates over a table that already stores a
snapshot leaves a stored snapshot that is one of the updates or the
original and whose `observed_at` dominates the original's and every
update's. -/
theorem PriceTable.updates_stored (ss : List PriceSnapshot) (t : PriceTable)
    (e p : String) (m0 : PriceSnapshot)
    (hkeys : ∀ x ∈ ss, x.exchange_id = e ∧ x.token_pair = p)
    (h0 : t (e, p) = some m0) :
    ∃ m, (t.updates ss) (e, p) = some m ∧ (m = m0 ∨ m ∈ ss) ∧
      m0.observed_at ≤ m.observed_at ∧ ∀ x ∈ ss, x.observed_at ≤ m.observed_at := by
  induction ss generalizing t m0 with
  | nil => exact ⟨m0, h0, Or.inl rfl, le_refl _, by simp⟩
  | cons s rest ih =>
    obtain ⟨hse, hsp⟩ := hkeys s (List.mem_cons_self s rest)
    have hkey : ((e, p) : String × String) = (s.exchange_id, s.token_pair) := by
      rw [hse, hsp]
    have hrest : ∀ x ∈ rest, x.exchange_id = e ∧ x.token_pair = p :=
      fun x hx => hkeys x (List.mem_cons_of_mem _ hx)
    have hstep : (t.updates (s :: rest)) = (t.update s).updates rest := rfl
    have h0' : t (s.exchange_id, s.token_pair) = some m0 := by
      rw [← hkey]
      exact h0
    by_cases hle : m0.observed_at ≤ s.observed_at
    · have h1 : (t.update s) (e, p) = some s := by
        simp [PriceTable.update, hkey, h0', hle]
      obtain ⟨m, hm, hmem, hge, hall⟩ := ih (t.update s) s hrest h1
      refine ⟨m, hstep ▸ hm, ?_, le_trans hle hge, fun x hx => ?_⟩
      · rcases hmem with h | h
        · exact Or.inr (h ▸ List.mem_cons_self s rest)
        · exact Or.inr (List.mem_cons_of_mem _ h)
      · rcases List.mem_cons.mp hx with h | h
        · exact h ▸ hge
        · exact hall x h
    · have h1 : (t.update s) (e, p) = some m0 := by
        simp [PriceTable.update, hkey, h0', hle]
      obtain ⟨m, hm, hmem, hge, hall⟩ := ih (t.update s) m0 hrest h1
      refine ⟨m, hstep ▸ hm, ?_, hge, fun x hx => ?_⟩
      · rcases hmem with h | h
        · exact Or.inl h
        · exact Or.inr (List.mem_cons_of_mem _ h)
      · rcases List.mem_cons.mp hx with h | h
        · exact h ▸ le_trans (le_of_lt (lt_of_not_le hle)) hge
        · exact hall x h

/-- C8: `update` replaces the stored entry for the snapshot's key iff the
new snapshot's `observed_at` is greater than or equal to the stored one's
(otherwise the stored entry is kept), and after any nonempty sequence of
same-key updates the stored snapshot is one of the updates and carries
the latest-or-equal `observed_at` of all of them.  The snapshot table and
`update` are modelled from the spec (§4.2); `dex_stream.rs` implements
neither. -/
theorem claim8_price_update_latest (t : PriceTable) (s old : PriceSnapshot)
    (ss : List PriceSnapshot) (e p : String)
    (hold : t (s.exchange_id, s.token_pair) = some old)
    (hkeys : ∀ x ∈ ss, x.exchange_id = e ∧ x.token_pair = p)
    (hne : ss ≠ []) :
    ((t.update s) (s.exchange_id, s.token_pair) = some s ↔
      old.observed_at ≤ s.observed_at) ∧
    (¬ old.observed_at ≤ s.observed_at →
      (t.update s) (s.exchange_id, s.token_pair) = some old) ∧
    ∃ m, (PriceTable.empty.updates ss) (e, p) = some m ∧ m ∈ ss ∧
      ∀ x ∈ ss, x.observed_at ≤ m.observed_at := by
  refine ⟨⟨fun hrepl => ?_, fun hle => ?_⟩, fun hnle => ?_, ?_⟩
  · by_cases hle : old.observed_at ≤ s.observed_at
    · exact hle
    · have : (t.update s) (s.exchange_id, s.token_pair) = some old := by
        simp [PriceTable.update, hold, hle]
      rw [this] at hrepl
      exact le_of_eq (congrArg PriceSnapshot.observed_at (Option.some.inj hrepl))
  · simp [PriceTable.update, hold, hle]
  · simp [PriceTable.update, hold, hnle]
  · match ss, hne with
    | s0 :: rest, _ =>
      obtain ⟨hs0e, hs0p⟩ := hkeys s0 (List.mem_cons_self s0 rest)
      have h1 : (PriceTable.empty.update s0) (e, p) = some s0 := by
        simp [PriceTable.update, PriceTable.empty, hs0e, hs0p]
      obtain ⟨m, hm, hmem, hge, hall⟩ := PriceTable.updates_stored rest
        (PriceTable.empty.update s0) e p s0
        (fun x hx => hkeys x (List.mem_cons_of_mem _ hx)) h1
      refine ⟨m, hm, ?_, fun x hx => ?_⟩
      · rcases hmem with h | h
        · exact h ▸ List.mem_cons_self s0 rest
        · exact List.mem_cons_of_mem _ h
      · rcases List.mem_cons.mp hx with h | h
        · exact h ▸ hge
        · exact hall x h

/-- Witness for C8: a stored snapshot at `observed_at = 10`, a fresh
update at `12`, and the update sequence `[10, 12, 11]` whose stored
survivor is the `12` snapshot. -/
theorem claim8_price_update_latest_witness :
    (((PriceTable.empty.update ⟨"ex", "pair", 1, 2, 10⟩).update ⟨"ex", "pair", 3, 4, 12⟩)
        ("ex", "pair") = some ⟨"ex", "pair", 3, 4, 12⟩ ↔
      (10 : ℚ) ≤ 12) ∧
    (¬ (10 : ℚ) ≤ 12 →
      ((PriceTable.empty.update ⟨"ex", "pair", 1, 2, 10⟩).update ⟨"ex", "pair", 3, 4, 12⟩)
        ("ex", "pair") = some ⟨"ex", "pair", 1, 2, 10⟩) ∧
    ∃ m, (PriceTable.empty.updates
        [⟨"ex", "pair", 1, 2, 10⟩, ⟨"ex", "pair", 3, 4, 12⟩, ⟨"ex", "pair", 5, 6, 11⟩])
        ("ex", "pair") = some m ∧
      m ∈ [(⟨"ex", "pair", 1, 2, 10⟩ : PriceSnapshot), ⟨"ex", "pair", 3, 4, 12⟩,
        ⟨"ex", "pair", 5, 6, 11⟩] ∧
      ∀ x ∈ [(⟨"ex", "pair", 1, 2, 10⟩ : PriceSnapshot), ⟨"ex", "pair", 3, 4, 12⟩,
        ⟨"ex", "pair", 5, 6, 11⟩], x.observed_at ≤ m.observed_at :=
  claim8_price_update_latest (PriceTable.empty.update ⟨"ex", "pair", 1, 2, 10⟩)
    ⟨"ex", "pair", 3, 4, 12⟩ ⟨"ex", "pair", 1, 2, 10⟩
    [⟨"ex", "pair", 1, 2, 10⟩, ⟨"ex", "pair", 3, 4, 12⟩, ⟨"ex", "pair", 5, 6, 11⟩]
    "ex" "pair" (by decide) (by decide) (by decide)

/-! ## Theorems: signal envelope wire codec -/

/-- Helper: a big-endian encoding is exactly `w` bytes long. -/
theorem beBytes_length (w n : Nat) : (beBytes w n).length = w := by
  induction w generalizing n with
  | zero => rfl
  | succ w ih => simp [beBytes, ih]

/-- Helper: folding the big-endian accumulator over `beBytes w n` shifts
the accumulator by `w` bytes and adds `n`'s low `w` bytes. -/
theorem foldl_beBytes (w n a : Nat) :
    List.foldl (fun a b => a * 256 + b) a (beBytes w n) = a * 256 ^ w + n % 256 ^ w := by
  induction w generalizing a with
  | zero => simp [beBytes, Nat.mod_one]
  | succ w ih =>
    rw [beBytes, List.foldl_cons, ih]
    have hmod : n % 256 ^ (w + 1) = n % 256 ^ w + 256 ^ w * (n / 256 ^ w % 256) := by
      rw [pow_succ]
      exact Nat.mod_mul
    rw [hmod, pow_succ]
    ring

/-- Helper: decoding a `w`-byte big-endian encoding of `n < 256 ^ w`
returns `n`. -/
theorem fromBeBytes_beBytes (w n : Nat) (h : n < 256 ^ w) :
    fromBeBytes (beBytes w n) = n := by
  rw [fromBeBytes, foldl_beBytes]
  simp [Nat.mod_eq_of_lt h]

/-- Helper: `takeBytes` splits a prefix of known length off exactly. -/
theorem takeBytes_append (n : Nat) (xs rest : List Nat) (h : xs.length = n) :
    takeBytes n (xs ++ rest) = some (xs, rest) := by
  subst h
  rw [takeBytes, if_pos (by simp)]
  simp

/-- Helper: `takeBytes` over the whole list returns it with empty rest. -/
theorem takeBytes_all (bs : List Nat) : takeBytes bs.length bs = some (bs, []) := by
  rw [takeBytes, if_pos (le_refl _)]
  simp

/-- Helper: decoding an encoded length-prefixed string recovers it. -/
theorem decodeStr_encodeStr (s rest : List Nat) (h : s.length < 2 ^ 32) :
    decodeStr (encodeStr s ++ rest) = some (s, rest) := by
  have h4 : (2 : Nat) ^ 32 = 256 ^ 4 := by norm_num
  rw [encodeStr, List.append_assoc, decodeStr]
  rw [takeBytes_append 4 (beBytes 4 s.length) (s ++ rest) (beBytes_length 4 s.length)]
  simp only [Option.bind_eq_bind, Option.some_bind]
  rw [fromBeBytes_beBytes 4 s.length (h4 ▸ h)]
  rw [takeBytes_append s.length s rest rfl]
  rfl

/-- Helper: decoding `n` encoded strings recovers them. -/
theorem decodeStrs_encode (ss : List (List Nat)) (rest : List Nat)
    (h : ∀ s ∈ ss, s.length < 2 ^ 32) :
    decodeStrs ss.length ((ss.map encodeStr).flatten ++ rest) = some (ss, rest) := by
  induction ss generalizing rest with
  | nil => rfl
  | cons s tl ih =>
    have hs : s.length < 2 ^ 32 := h s (List.mem_cons_self s tl)
    have htl : ∀ x ∈ tl, x.length < 2 ^ 32 := fun x hx => h x (List.mem_cons_of_mem _ hx)
    rw [List.length_cons, List.map_cons, List.flatten_cons, List.append_assoc, decodeStrs]
    rw [decodeStr_encodeStr s ((tl.map encodeStr).flatten ++ rest) hs]
    simp only [Option.bind_eq_bind, Option.some_bind]
    rw [ih rest htl]
    rfl

/-- Helper: decoding an encoded count-prefixed string list recovers it. -/
theorem decodeStrList_encode (ss : List (List Nat)) (rest : List Nat)
    (hcnt : ss.length < 2 ^ 32) (h : ∀ s ∈ ss, s.length < 2 ^ 32) :
    decodeStrList (encodeStrList ss ++ rest) = some (ss, rest) := by
  have h4 : (2 : Nat) ^ 32 = 256 ^ 4 := by norm_num
  rw [encodeStrList, List.append_assoc, decodeStrList]
  rw [takeBytes_append 4 (beBytes 4 ss.length) _ (beBytes_length 4 ss.length)]
  simp only [Option.bind_eq_bind, Option.some_bind]
  rw [fromBeBytes_beBytes 4 ss.length (h4 ▸ hcnt)]
  exact decodeStrs_encode ss rest h

/-- Helper: decoding an encoded payload recovers the hops and the token
path. -/
theorem decodePayload_encode (hops token_path : List (List Nat))
    (hhc : hops.length < 2 ^ 32) (htc : token_path.length < 2 ^ 32)
    (hh : ∀ s ∈ hops, s.length < 2 ^ 32) (ht : ∀ s ∈ token_path, s.length < 2 ^ 32) :
    decodePayload (encodePayload hops token_path) = some (hops, token_path) := by
  rw [encodePayload, decodePayload]
  rw [decodeStrList_encode hops (encodeStrList token_path) hhc hh]
  simp only [Option.bind_eq_bind, Option.some_bind]
  have : encodeStrList token_path = encodeStrList token_path ++ [] := by simp
  rw [this, decodeStrList_encode token_path [] htc ht]
  rfl

/-- C7: encoding an accepted route as a `RouteAccepted` envelope in the
wire format of §6 (1-byte kind tag, 8-byte big-endian sequence number,
4-byte big-endian payload length, payload with the hops and the token
path as length-prefixed UTF-8 strings) and decoding it back reproduces
the kind, the sequence number, and the route's hops and token path
byte-for-byte.  The codec is modelled from the spec; `signal_bridge.rs`
implements no envelope serialization.  The bounds say that each list
count, each string byte length, the whole payload length and the
sequence number fit their wire fields. -/
theorem claim7_envelope_roundtrip (sequence : Nat) (route : Route)
    (hseq : sequence < 2 ^ 64)
    (hhc : (route.hops.map utf8Bytes).length < 2 ^ 32)
    (htc : (route.token_path.map utf8Bytes).length < 2 ^ 32)
    (hh : ∀ s ∈ route.hops.map utf8Bytes, s.length < 2 ^ 32)
    (ht : ∀ s ∈ route.token_path.map utf8Bytes, s.length < 2 ^ 32)
    (hpay : (encodePayload (route.hops.map utf8Bytes)
      (route.token_path.map utf8Bytes)).length < 2 ^ 32) :
    decodeEnvelope (encodeRouteAccepted sequence route) =
      some (SignalKind.RouteAccepted, sequence,
        route.hops.map utf8Bytes, route.token_path.map utf8Bytes) := by
  have h8 : (2 : Nat) ^ 64 = 256 ^ 8 := by norm_num
  have h4 : (2 : Nat) ^ 32 = 256 ^ 4 := by norm_num
  rw [encodeRouteAccepted, encodeEnvelope, decodeEnvelope]
  show (Option.bind (tagToKind SignalKind.RouteAccepted.tag) _) = _
  rw [show tagToKind SignalKind.RouteAccepted.tag = some SignalKind.RouteAccepted from rfl]
  simp only [Option.some_bind]
  rw [List.append_assoc]
  rw [takeBytes_append 8 (beBytes 8 sequence) _ (beBytes_length 8 sequence)]
  simp only [Option.bind_eq_bind, Option.some_bind]
  rw [takeBytes_append 4 (beBytes 4 _) _ (beBytes_length 4 _)]
  simp only [Option.some_bind]
  rw [fromBeBytes_beBytes 4 _ (h4 ▸ hpay)]
  rw [takeBytes_all]
  simp only [Option.some_bind, List.isEmpty_nil, if_true]
  rw [decodePayload_encode _ _ hhc htc hh ht]
  simp only [Option.some_bind]
  rw [fromBeBytes_beBytes 8 sequence (h8 ▸ hseq)]
  rfl

/-- Witness for C7: a two-hop route with a one-token path at sequence
number `7` round-trips through the wire format. -/
theorem claim7_envelope_roundtrip_witness :
    decodeEnvelope (encodeRouteAccepted 7
        { hops := ["a", "b"], estimated_profit := 1, token_path := ["T"] }) =
      some (SignalKind.RouteAccepted, 7, [[97], [98]], [[84]]) := by
  rw [claim7_envelope_roundtrip 7
    { hops := ["a", "b"], estimated_profit := 1, token_path := ["T"] }
    (by decide) (by decide) (by decide) (by decide) (by decide) (by decide)]
  decide

end OmniArb
